import Mathlib

/-!
Verification development for the proto-player audio-metadata extractor.

The JavaScript sources are embedded shallowly:
* byte buffers (`ArrayBuffer` / `Uint8Array`) are `List Nat` whose elements are
  byte values; `DataView` accessors are fallible (`Except JSError`) exactly where
  the JS accessor can throw a `RangeError`, and they mask their result to a byte;
* JS strings are lists of UTF-16 code units (`List Nat`), as produced by
  `String.fromCharCode` and `TextDecoder`;
* each tag reader is a function from the sliced file bytes to
  `Except JSError TagRecord`: a thrown exception in the JS code is `.error`;
* the bounded-concurrency scan pipeline is a small-step transition relation.
-/

namespace ProtoPlayer

/-- Byte buffers (`ArrayBuffer`/`Uint8Array` contents). -/
abbrev Bytes := List Nat

/-- JS strings as lists of UTF-16 code units. -/
abbrev JSStr := List Nat

/-- The only runtime error the modelled code can raise: a `RangeError` from an
out-of-bounds `DataView` read. -/
inductive JSError where
  | rangeError
deriving DecidableEq, Repr

/-- Convert a Lean string literal (ASCII/BMP) to a JS string. -/
def jsOfString (s : String) : JSStr := s.data.map Char.toNat

/-- `DataView.getUint8`: throws when the offset is out of bounds. -/
def getUint8 (b : Bytes) (i : Nat) : Except JSError Nat :=
  if i < b.length then .ok (b.getD i 0 % 256) else .error .rangeError

/-- Total big-endian 32-bit read (used where the JS code has already
bounds-checked, so the `DataView` read cannot throw). -/
def u32be (b : Bytes) (i : Nat) : Nat :=
  (b.getD i 0 % 256) * 16777216 + (b.getD (i+1) 0 % 256) * 65536 +
    (b.getD (i+2) 0 % 256) * 256 + (b.getD (i+3) 0 % 256)

/-- Total little-endian 32-bit read. -/
def u32le (b : Bytes) (i : Nat) : Nat :=
  (b.getD i 0 % 256) + (b.getD (i+1) 0 % 256) * 256 +
    (b.getD (i+2) 0 % 256) * 65536 + (b.getD (i+3) 0 % 256) * 16777216

/-- Total big-endian 16-bit read. -/
def u16be (b : Bytes) (i : Nat) : Nat :=
  (b.getD i 0 % 256) * 256 + (b.getD (i+1) 0 % 256)

/-- `DataView.getUint32` (big-endian): throws when 4 bytes are not available. -/
def getUint32 (b : Bytes) (i : Nat) : Except JSError Nat :=
  if i + 4 ≤ b.length then .ok (u32be b i) else .error .rangeError

/-- `decodeSyncsafe(view, offset)` from id3-parser.js: four `getUint8` reads
combined with `& 0x7f`, `<<` and `|` exactly as in the source. -/
def decodeSyncsafe (view : Bytes) (offset : Nat) : Except JSError Nat := do
  let b0 ← getUint8 view offset
  let b1 ← getUint8 view (offset + 1)
  let b2 ← getUint8 view (offset + 2)
  let b3 ← getUint8 view (offset + 3)
  pure ((((b0 &&& 127) <<< 21) ||| ((b1 &&& 127) <<< 14)) ||| ((b2 &&& 127) <<< 7)
    ||| (b3 &&& 127))

/-- The WhiteSpace/LineTerminator set of JS (`String.prototype.trim`, regex `\s`). -/
def isJSWhitespace (c : Nat) : Bool :=
  c = 9 || c = 10 || c = 11 || c = 12 || c = 13 || c = 32 || c = 160 ||
  c = 0x1680 || (0x2000 ≤ c && c ≤ 0x200A) || c = 0x2028 || c = 0x2029 ||
  c = 0x202F || c = 0x205F || c = 0x3000 || c = 0xFEFF

/-- `String.prototype.trim`. -/
def jsTrim (s : JSStr) : JSStr :=
  ((s.dropWhile isJSWhitespace).reverse.dropWhile isJSWhitespace).reverse

/-- `decodeLatin1` from id3-parser.js: one code unit per byte, stopping at the
first zero byte. -/
def decodeLatin1 : Bytes → JSStr
  | [] => []
  | b :: rest => if b = 0 then [] else b :: decodeLatin1 rest

/-- `decodeUTF16` from id3-parser.js: pairs of bytes combined per endianness,
stopping at a zero code (a double zero byte). A trailing odd byte is dropped. -/
def decodeUTF16 : Bytes → Bool → JSStr
  | b0 :: b1 :: rest, littleEndian =>
    let code := if littleEndian then b0 ||| (b1 <<< 8) else (b0 <<< 8) ||| b1
    if code = 0 then [] else code :: decodeUTF16 rest littleEndian
  | _, _ => []

/-- Strip a UTF-8 byte-order mark (`TextDecoder('utf-8')` has `ignoreBOM: false`). -/
def stripBOM : Bytes → Bytes
  | 0xEF :: 0xBB :: 0xBF :: rest => rest
  | l => l

/-- WHATWG UTF-8 decoding to code points, emitting U+FFFD for errors
(maximal-subpart resynchronisation), as `TextDecoder('utf-8')` does. -/
def utf8DecodeCore (fuel : Nat) : Bytes → List Nat
  | [] => []
  | b :: rest =>
    match fuel with
    | 0 => []
    | fuel + 1 =>
        if b < 0x80 then b :: utf8DecodeCore fuel rest
        else if 0xC2 ≤ b ∧ b ≤ 0xDF then
          match rest with
          | [] => [0xFFFD]
          | c1 :: rest1 =>
            if 0x80 ≤ c1 ∧ c1 ≤ 0xBF then
              ((b - 0xC0) * 64 + (c1 - 0x80)) :: utf8DecodeCore fuel rest1
            else 0xFFFD :: utf8DecodeCore fuel rest
        else if 0xE0 ≤ b ∧ b ≤ 0xEF then
          let lo1 := if b = 0xE0 then 0xA0 else 0x80
          let hi1 := if b = 0xED then 0x9F else 0xBF
          match rest with
          | [] => [0xFFFD]
          | c1 :: rest1 =>
            if lo1 ≤ c1 ∧ c1 ≤ hi1 then
              match rest1 with
              | [] => [0xFFFD]
              | c2 :: rest2 =>
                if 0x80 ≤ c2 ∧ c2 ≤ 0xBF then
                  ((b - 0xE0) * 4096 + (c1 - 0x80) * 64 + (c2 - 0x80)) :: utf8DecodeCore fuel rest2
                else 0xFFFD :: utf8DecodeCore fuel rest1
            else 0xFFFD :: utf8DecodeCore fuel rest
        else if 0xF0 ≤ b ∧ b ≤ 0xF4 then
          let lo1 := if b = 0xF0 then 0x90 else 0x80
          let hi1 := if b = 0xF4 then 0x8F else 0xBF
          match rest with
          | [] => [0xFFFD]
          | c1 :: rest1 =>
            if lo1 ≤ c1 ∧ c1 ≤ hi1 then
              match rest1 with
              | [] => [0xFFFD]
              | c2 :: rest2 =>
                if 0x80 ≤ c2 ∧ c2 ≤ 0xBF then
                  match rest2 with
                  | [] => [0xFFFD]
                  | c3 :: rest3 =>
                    if 0x80 ≤ c3 ∧ c3 ≤ 0xBF then
                      ((b - 0xF0) * 262144 + (c1 - 0x80) * 4096 + (c2 - 0x80) * 64 + (c3 - 0x80))
                        :: utf8DecodeCore fuel rest3
                    else 0xFFFD :: utf8DecodeCore fuel rest2
                else 0xFFFD :: utf8DecodeCore fuel rest1
            else 0xFFFD :: utf8DecodeCore fuel rest
        else 0xFFFD :: utf8DecodeCore fuel rest

/-- Code points to UTF-16 code units (surrogate pairs above the BMP). -/
def toUTF16 (cps : List Nat) : JSStr :=
  cps.flatMap fun c =>
    if c < 0x10000 then [c]
    else [0xD800 + (c - 0x10000) / 1024, 0xDC00 + (c - 0x10000) % 1024]

/-- `decodeUTF8` / `new TextDecoder('utf-8').decode`. -/
def decodeUTF8 (bytes : Bytes) : JSStr :=
  toUTF16 (utf8DecodeCore (bytes.length + 1) (stripBOM bytes))

/-- `decodeString(bytes, encoding)` from id3-parser.js. -/
def decodeString (bytes : Bytes) (encoding : Nat) : JSStr :=
  if encoding = 0 then decodeLatin1 bytes
  else if encoding = 1 then
    if bytes.length < 2 then []
    else
      let le := bytes.getD 0 0 = 0xFF ∧ bytes.getD 1 0 = 0xFE
      decodeUTF16 (bytes.drop 2) le
  else if encoding = 2 then decodeUTF16 bytes false
  else if encoding = 3 then decodeUTF8 bytes
  else decodeLatin1 bytes

/-- `decodeTextFrame(data)` from id3-parser.js. -/
def decodeTextFrame (data : Bytes) : JSStr :=
  if data.length < 2 then []
  else jsTrim (decodeString (data.drop 1) (data.getD 0 0))

/-- An embedded cover picture: MIME string plus image bytes. -/
structure Picture where
  mime : JSStr
  data : Bytes
deriving DecidableEq, Repr

/-- The normalized tag record `{ title, artist, album, track, picture }`;
`none` models JS `null`. -/
structure TagRecord where
  title : Option JSStr
  artist : Option JSStr
  album : Option JSStr
  track : Option JSStr
  picture : Option Picture
deriving DecidableEq, Repr

/-- The all-`null` record every reader starts from. -/
def emptyTag : TagRecord :=
  { title := none, artist := none, album := none, track := none, picture := none }

/-- `file.slice(start, start + length).arrayBuffer()`: clamped, never throws. -/
def readSlice (file : Bytes) (start length : Nat) : Bytes :=
  (file.drop start).take length

/-- The scan of `parseAPIC`'s `while (pos < data.length && data[pos] !== 0) pos++`:
returns the final `pos`. Structural on a fuel bound: the cursor gains 1 per
consumed fuel unit and the loop stops once `pos ≥ data.length`, so the
`data.length + 1` supplied by `parseAPIC` can never run out. -/
def apicScanToNull (fuel : Nat) (data : Bytes) (pos : Nat) : Nat :=
  match fuel with
  | 0 => pos
  | fuel + 1 =>
    if pos < data.length then
      if data.getD pos 0 ≠ 0 then apicScanToNull fuel data (pos + 1) else pos
    else pos

/-- The UTF-16 description skip of `parseAPIC`: advance by 2 until a double
zero byte (consumed) or until fewer than 2 bytes remain. Fuel as in
`apicScanToNull`. -/
def apicSkipDesc16 (fuel : Nat) (data : Bytes) (pos : Nat) : Nat :=
  match fuel with
  | 0 => pos
  | fuel + 1 =>
    if pos + 1 < data.length then
      if data.getD pos 0 = 0 ∧ data.getD (pos + 1) 0 = 0 then pos + 2
      else apicSkipDesc16 fuel data (pos + 2)
    else pos

/-- `parseAPIC(data)` from id3-parser.js. -/
def parseAPIC (data : Bytes) : Option Picture :=
  if data.length < 4 then none
  else
    let encoding := data.getD 0 0
    let mimeEnd := apicScanToNull (data.length + 1) data 1
    let mime : JSStr := (data.take mimeEnd).drop 1
    let pos := mimeEnd + 1
    if pos ≥ data.length then none
    else
      let pos := pos + 1
      let pos :=
        if encoding = 1 ∨ encoding = 2 then apicSkipDesc16 (data.length + 1) data pos
        else apicScanToNull (data.length + 1) data pos + 1
      if pos ≥ data.length then none
      else some { mime := if mime = [] then jsOfString "image/jpeg" else mime,
                  data := data.drop pos }

/-- One frame-field assignment of `parseID3`'s frame loop (the `WANTED` branch). -/
def id3Assign (result : TagRecord) (frameId : JSStr) (frameData : Bytes) : TagRecord :=
  if frameId = jsOfString "APIC" then { result with picture := parseAPIC frameData }
  else
    let text := decodeTextFrame frameData
    if frameId = jsOfString "TIT2" then { result with title := some text }
    else if frameId = jsOfString "TPE1" then { result with artist := some text }
    else if frameId = jsOfString "TALB" then { result with album := some text }
    else if frameId = jsOfString "TRCK" then { result with track := some text }
    else result

/-- The five frame ids `parseID3` decodes. -/
def id3Wanted : List JSStr :=
  [jsOfString "TIT2", jsOfString "TPE1", jsOfString "TALB", jsOfString "TRCK",
   jsOfString "APIC"]

/-- The declared frame size read of the ID3v2 frame loop: syncsafe for major
version 4, plain big-endian 32-bit otherwise. -/
def id3FrameSize (body : Bytes) (major pos : Nat) : Except JSError Nat :=
  if major = 4 then decodeSyncsafe body (pos + 4) else getUint32 body (pos + 4)

/-- The `while (pos + 10 <= body.byteLength)` frame loop of `parseID3`.
Structural on a fuel bound: each iteration advances `pos` by at least 11
(`frameSize = 0` breaks), and the loop stops once `pos + 10 > body.length`,
so the `body.length + 1` supplied by `parseID3` can never run out. -/
def id3FrameLoop (fuel : Nat) (body : Bytes) (major pos : Nat) (result : TagRecord) :
    Except JSError TagRecord := do
  match fuel with
  | 0 => pure result
  | fuel + 1 =>
  if pos + 10 ≤ body.length then
    let c0 ← getUint8 body pos
    let c1 ← getUint8 body (pos + 1)
    let c2 ← getUint8 body (pos + 2)
    let c3 ← getUint8 body (pos + 3)
    let frameId : JSStr := [c0, c1, c2, c3]
    if c0 = 0 then pure result
    else do
      let frameSize ← id3FrameSize body major pos
      let pos := pos + 10
      if frameSize = 0 ∨ pos + frameSize > body.length then pure result
      else
        let result :=
          if frameId ∈ id3Wanted then
            id3Assign result frameId ((body.drop pos).take frameSize)
          else result
        id3FrameLoop fuel body major (pos + frameSize) result
  else pure result

/-- `parseID3(file)` from id3-parser.js, acting on the file's bytes. -/
def parseID3 (file : Bytes) : Except JSError TagRecord := do
  let result := emptyTag
  let headerBuf := readSlice file 0 10
  if headerBuf.length < 10 then pure result
  else do
    let m0 ← getUint8 headerBuf 0
    let m1 ← getUint8 headerBuf 1
    let m2 ← getUint8 headerBuf 2
    if m0 ≠ 0x49 ∨ m1 ≠ 0x44 ∨ m2 ≠ 0x33 then pure result
    else do
      let major ← getUint8 headerBuf 3
      if major < 3 ∨ major > 4 then pure result
      else do
        let flags ← getUint8 headerBuf 5
        let tagSize ← decodeSyncsafe headerBuf 6
        let offset ←
          if flags &&& 0x40 ≠ 0 then do
            let extBuf := readSlice file 10 4
            let extSize ← if major = 4 then decodeSyncsafe extBuf 0 else getUint32 extBuf 0
            pure (10 + extSize)
          else pure 10
        let tagEnd := 10 + tagSize
        let bodyBuf := readSlice file offset (tagEnd - offset)
        id3FrameLoop (bodyBuf.length + 1) bodyBuf major 0 result

/-- `Uint8Array` element access (within-bounds call sites only). -/
def byteAt (b : Bytes) (i : Nat) : Nat := b.getD i 0 % 256

/-- Truthiness of a nullable JS string: `null` and `""` are falsy. -/
def jsFalsy (o : Option JSStr) : Bool :=
  match o with
  | none => true
  | some s => s.isEmpty

/-- Base64 alphabet value of one character. -/
def b64Val (c : Nat) : Option Nat :=
  if 65 ≤ c ∧ c ≤ 90 then some (c - 65)
  else if 97 ≤ c ∧ c ≤ 122 then some (c - 97 + 26)
  else if 48 ≤ c ∧ c ≤ 57 then some (c - 48 + 52)
  else if c = 43 then some 62
  else if c = 47 then some 63
  else none

/-- Emit output bytes from 6-bit groups (excess bits of a final partial
group are discarded, per forgiving-base64). -/
def b64Groups : List Nat → Bytes
  | v1 :: v2 :: v3 :: v4 :: rest =>
    (v1 * 4 + v2 / 16) :: ((v2 % 16) * 16 + v3 / 4) :: ((v3 % 4) * 64 + v4) ::
      b64Groups rest
  | [v1, v2, v3] => [v1 * 4 + v2 / 16, (v2 % 16) * 16 + v3 / 4]
  | [v1, v2] => [v1 * 4 + v2 / 16]
  | _ => []

/-- `window.atob`: forgiving-base64 decode; `.error` models the thrown
`InvalidCharacterError`. -/
def atob (s : JSStr) : Except JSError Bytes :=
  let t := s.filter fun c => !(c = 9 || c = 10 || c = 12 || c = 13 || c = 32)
  let t :=
    if t.length % 4 = 0 then
      match t.reverse with
      | 61 :: 61 :: r => r.reverse
      | 61 :: r => r.reverse
      | _ => t
    else t
  if t.length % 4 = 1 then .error .rangeError
  else
    match t.mapM b64Val with
    | none => .error .rangeError
    | some vs => .ok (b64Groups vs)

/-- ASCII model of `String.prototype.toUpperCase` (vorbis keys are ASCII). -/
def jsToUpper (s : JSStr) : JSStr :=
  s.map fun c => if 97 ≤ c ∧ c ≤ 122 then c - 32 else c

/-- `parseFLACPicture(view, bytes, result)` from metadata.js. The
`descLen` read at offset `8 + mimeLen` is the one unguarded `DataView` read. -/
def parseFLACPicture (block : Bytes) (result : TagRecord) : Except JSError TagRecord :=
  if result.picture.isSome then .ok result
  else if block.length < 32 then .ok result
  else do
    let mimeLen := u32be block 4
    if 8 + mimeLen > block.length then pure result
    else do
      let mimeRaw := decodeUTF8 ((block.drop 8).take mimeLen)
      let mime := if mimeRaw = [] then jsOfString "image/jpeg" else mimeRaw
      let descLen ← getUint32 block (8 + mimeLen)
      let pos := 8 + mimeLen + 4 + descLen + 16
      if pos + 4 > block.length then pure result
      else
        let dataLen := u32be block pos
        let pos := pos + 4
        if pos + dataLen > block.length then pure result
        else
          pure { result with
                 picture := some { mime := mime, data := (block.drop pos).take dataLen } }

/-- One `KEY=value` comment assignment of `parseVorbisComment`. -/
def vorbisAssign (comment : JSStr) (result : TagRecord) : TagRecord :=
  match comment.findIdx? (fun c => c = 61) with
  | none => result
  | some eq =>
    if eq > 0 then
      let key := jsToUpper (comment.take eq)
      let value := comment.drop (eq + 1)
      if key = jsOfString "TITLE" then { result with title := some value }
      else if key = jsOfString "ARTIST" then { result with artist := some value }
      else if key = jsOfString "ALBUM" then { result with album := some value }
      else if key = jsOfString "TRACKNUMBER" then { result with track := some value }
      else if key = jsOfString "METADATA_BLOCK_PICTURE" ∧ result.picture.isNone then
        match atob value with
        | .error _ => result
        | .ok arr =>
          match parseFLACPicture arr result with
          | .error _ => result
          | .ok r => r
      else result
    else result

/-- The comment loop of `parseVorbisComment`. The source counts `i` up to
`count`; here `remaining = count - i` counts down (structurally), which is the
same loop. -/
def vorbisComments (view : Bytes) (pos : Nat) (remaining : Nat) (result : TagRecord) :
    TagRecord :=
  match remaining with
  | 0 => result
  | remaining + 1 =>
    if pos + 4 ≤ view.length then
      let commentLen := u32le view pos
      let pos := pos + 4
      if pos + commentLen > view.length then result
      else
        let comment := decodeUTF8 ((view.drop pos).take commentLen)
        vorbisComments view (pos + commentLen) remaining (vorbisAssign comment result)
    else result

/-- `parseVorbisComment(view, result)` from metadata.js: total, because every
read is bounds-guarded and the picture branch swallows its errors. -/
def parseVorbisComment (view : Bytes) (result : TagRecord) : TagRecord :=
  if 4 > view.length then result
  else
    let vendorLen := u32le view 0
    let pos := 4 + vendorLen
    if pos + 4 > view.length then result
    else vorbisComments view (pos + 4) (u32le view pos) result

/-- The FLAC metadata-block loop of `parseFLAC`. Structural on a fuel bound:
each iteration advances `pos` by at least 4 and the loop stops once
`pos + 4 > buf.length`, so the `buf.length + 1` supplied by `parseFLAC` can
never run out. -/
def parseFLACBlockLoop (fuel : Nat) (buf : Bytes) (pos : Nat) (result : TagRecord) :
    Except JSError TagRecord := do
  match fuel with
  | 0 => pure result
  | fuel + 1 =>
  if pos + 4 ≤ buf.length then
    let header := u32be buf pos
    let isLast := header >>> 31 = 1
    let blockType := (header >>> 24) &&& 0x7F
    let blockLen := header &&& 0xFFFFFF
    let pos := pos + 4
    if pos + blockLen > buf.length then pure result
    else do
      let block := (buf.drop pos).take blockLen
      let result ←
        if blockType = 4 then pure (parseVorbisComment block result)
        else if blockType = 6 then parseFLACPicture block result
        else pure result
      if isLast then pure result
      else parseFLACBlockLoop fuel buf (pos + blockLen) result
  else pure result

/-- `parseFLAC(file)` from metadata.js, on the file's bytes (the JS code
fetches at most the first 512 KiB). -/
def parseFLAC (file : Bytes) : Except JSError TagRecord := do
  let result := emptyTag
  let buf := file.take (512 * 1024)
  if buf.length < 8 then pure result
  else if u32be buf 0 ≠ 0x664C6143 then pure result
  else parseFLACBlockLoop (buf.length + 1) buf 4 result

/-- Scan for a signature; on a hit return the index just after it
(`findVorbisCommentStart`'s `i + sig.length`). Structural on a fuel bound:
the index gains 1 per consumed fuel unit and the scan stops once
`i + sig.length > body.length`, so `body.length + 1` can never run out. -/
def findVorbisSig (fuel : Nat) (body sig : Bytes) (i : Nat) : Option Nat :=
  match fuel with
  | 0 => none
  | fuel + 1 =>
    if i + sig.length ≤ body.length then
      if (body.drop i).take sig.length = sig then some (i + sig.length)
      else findVorbisSig fuel body sig (i + 1)
    else none

/-- `findVorbisCommentStart(body)`: `\x03vorbis` first, then `OpusTags`;
`none` models the `-1` return. -/
def findVorbisCommentStart (body : Bytes) : Option Nat :=
  match findVorbisSig (body.length + 1) body [0x03, 0x76, 0x6F, 0x72, 0x62, 0x69, 0x73] 0 with
  | some c => some c
  | none => findVorbisSig (body.length + 1) body [0x4F, 0x70, 0x75, 0x73, 0x54, 0x61, 0x67, 0x73] 0

/-- Sum of the `numSegments` segment-length bytes of an Ogg page header. -/
def segSum (buf : Bytes) (base n : Nat) : Nat :=
  ((List.range n).map fun i => byteAt buf (base + i)).sum

/-- The page loop of `parseOGG` (at most 10 pages). The source counts
`pageCount` up to 10; `remaining = 10 - pageCount` counts down (structurally),
so the loop guard `pageCount < 10` is the `remaining + 1` pattern. -/
def oggPageLoop (remaining : Nat) (buf : Bytes) (pageStart pageCount : Nat)
    (result : TagRecord) : TagRecord :=
  match remaining with
  | 0 => result
  | remaining + 1 =>
  if pageStart + 27 ≤ buf.length then
    if byteAt buf pageStart = 0x4F ∧ byteAt buf (pageStart + 1) = 0x67 ∧
        byteAt buf (pageStart + 2) = 0x67 ∧ byteAt buf (pageStart + 3) = 0x53 then
      let numSegments := byteAt buf (pageStart + 26)
      if pageStart + 27 + numSegments > buf.length then result
      else
        let bodySize := segSum buf (pageStart + 27) numSegments
        let bodyStart := pageStart + 27 + numSegments
        let step :=
          if 1 ≤ pageCount ∧ bodyStart + bodySize ≤ buf.length then
            match findVorbisCommentStart ((buf.drop bodyStart).take bodySize) with
            | some commentStart =>
              if commentStart < bodySize then
                let r := parseVorbisComment
                  ((buf.drop (bodyStart + commentStart)).take (bodySize - commentStart))
                  result
                (r, !jsFalsy r.title || !jsFalsy r.artist)
              else (result, false)
            | none => (result, false)
          else (result, false)
        if step.2 then step.1
        else oggPageLoop remaining buf (bodyStart + bodySize) (pageCount + 1) step.1
    else result
  else result

/-- `parseOGG(file)` from metadata.js (first 256 KiB; total, all reads guarded). -/
def parseOGG (file : Bytes) : TagRecord :=
  let buf := file.take (256 * 1024)
  if buf.length < 28 then emptyTag
  else oggPageLoop 10 buf 0 0 emptyTag

/-- The `{ dataStart, end }` record returned by `findAtom` (`end` is a Lean
keyword, rendered `endPos`). -/
structure MP4Atom where
  dataStart : Nat
  endPos : Nat
deriving DecidableEq, Repr

/-- `DataView.getUint16` (big-endian). -/
def getUint16 (b : Bytes) (i : Nat) : Except JSError Nat :=
  if i + 2 ≤ b.length then .ok (u16be b i) else .error .rangeError

/-- `String(n)` for an unsigned number: its decimal digits as a JS string. -/
def natToJSStr (n : Nat) : JSStr := jsOfString (toString n)

/-- The scanning loop of `findAtom(view, start, end, name)` from metadata.js.
On a declared size below 8 it advances 4 bytes and keeps scanning
(`pos += 4; continue`). Structural on a fuel bound: the cursor advances by at
least 4 per iteration and the loop stops once `pos + 8 > endPos`, so the
`endPos + 1` supplied by `findAtom` can never run out. -/
def findAtomLoop (fuel : Nat) (view : Bytes) (pos endPos : Nat) (name : JSStr) :
    Except JSError (Option MP4Atom) := do
  match fuel with
  | 0 => pure none
  | fuel + 1 =>
  if pos + 8 ≤ endPos then
    let size ← getUint32 view pos
    if size < 8 then findAtomLoop fuel view (pos + 4) endPos name
    else if pos + size > endPos then pure none
    else do
      let t0 ← getUint8 view (pos + 4)
      let t1 ← getUint8 view (pos + 5)
      let t2 ← getUint8 view (pos + 6)
      let t3 ← getUint8 view (pos + 7)
      if ([t0, t1, t2, t3] : JSStr) = name then
        pure (some { dataStart := pos + 8, endPos := pos + size })
      else findAtomLoop fuel view (pos + size) endPos name
  else pure none

/-- `findAtom(view, start, end, name)` from metadata.js. -/
def findAtom (view : Bytes) (start endPos : Nat) (name : JSStr) :
    Except JSError (Option MP4Atom) :=
  findAtomLoop (endPos + 1) view start endPos name

/-- One metadata-item assignment of `parseM4A`'s `ilst` loop. -/
def ilstAssign (buf : Bytes) (atomType : JSStr) (dataAtom : MP4Atom)
    (result : TagRecord) : Except JSError TagRecord := do
  let valueStart := dataAtom.dataStart + 8
  let valueLen := dataAtom.endPos - valueStart
  if valueLen > 0 then
    if atomType = 169 :: jsOfString "nam" then
      pure { result with title := some (decodeUTF8 ((buf.drop valueStart).take valueLen)) }
    else if atomType = 169 :: jsOfString "ART" then
      pure { result with artist := some (decodeUTF8 ((buf.drop valueStart).take valueLen)) }
    else if atomType = 169 :: jsOfString "alb" then
      pure { result with album := some (decodeUTF8 ((buf.drop valueStart).take valueLen)) }
    else if atomType = jsOfString "trkn" ∧ valueLen ≥ 4 then do
      let n ← getUint16 buf (valueStart + 2)
      pure { result with track := some (natToJSStr n) }
    else if atomType = jsOfString "covr" ∧ valueLen > 16 then do
      let typeFlag ← getUint32 buf dataAtom.dataStart
      let mime := if typeFlag = 14 then jsOfString "image/png" else jsOfString "image/jpeg"
      pure { result with
             picture := some { mime := mime, data := (buf.drop valueStart).take valueLen } }
    else pure result
  else pure result

/-- The `ilst` item loop of `parseM4A`: here (unlike `findAtom`) a declared
size below 8 breaks the loop. Structural on a fuel bound: the cursor advances
by at least 8 per iteration and the loop stops once `pos + 8 > endPos`, so
the `endPos + 1` supplied by `parseM4A` can never run out. -/
def ilstLoop (fuel : Nat) (buf : Bytes) (pos endPos : Nat) (result : TagRecord) :
    Except JSError TagRecord := do
  match fuel with
  | 0 => pure result
  | fuel + 1 =>
  if pos + 8 ≤ endPos then
    let atomSize ← getUint32 buf pos
    if atomSize < 8 ∨ pos + atomSize > endPos then pure result
    else do
      let t0 ← getUint8 buf (pos + 4)
      let t1 ← getUint8 buf (pos + 5)
      let t2 ← getUint8 buf (pos + 6)
      let t3 ← getUint8 buf (pos + 7)
      let atomType : JSStr := [t0, t1, t2, t3]
      let dataAtom ← findAtom buf (pos + 8) (pos + atomSize) (jsOfString "data")
      let result ←
        match dataAtom with
        | some d =>
          if d.endPos - d.dataStart > 8 then ilstAssign buf atomType d result
          else pure result
        | none => pure result
      ilstLoop fuel buf (pos + atomSize) endPos result
  else pure result

/-- `parseM4A(file)` from metadata.js (first 1 MiB). -/
def parseM4A (file : Bytes) : Except JSError TagRecord := do
  let result := emptyTag
  let buf := file.take (1024 * 1024)
  if buf.length < 8 then pure result
  else do
    match ← findAtom buf 0 buf.length (jsOfString "moov") with
    | none => pure result
    | some moov =>
      match ← findAtom buf moov.dataStart moov.endPos (jsOfString "udta") with
      | none => pure result
      | some udta =>
        match ← findAtom buf udta.dataStart udta.endPos (jsOfString "meta") with
        | none => pure result
        | some meta =>
          match ← findAtom buf (meta.dataStart + 4) meta.endPos (jsOfString "ilst") with
          | none => pure result
          | some ilst => ilstLoop (ilst.endPos + 1) buf ilst.dataStart ilst.endPos result

/-- The parts of a browser `File` object the loader reads. -/
structure JSFile where
  name : JSStr
  relativePath : Option JSStr
  webkitRelativePath : Option JSStr
deriving DecidableEq, Repr

/-- JS `a || b` on a nullable string: the default when `a` is `null` or `""`. -/
def jsOr (o : Option JSStr) (d : JSStr) : JSStr :=
  match o with
  | none => d
  | some s => if s = [] then d else s

/-- `path.split('/')` for a single-character separator. -/
def jsSplit (sep : Nat) : JSStr → List JSStr
  | [] => [[]]
  | c :: rest =>
    match jsSplit sep rest with
    | [] => [[]]
    | h :: t => if c = sep then [] :: h :: t else (c :: h) :: t

/-- Regex `\w` (`[A-Za-z0-9_]`). -/
def isWordChar (c : Nat) : Bool :=
  (48 ≤ c && c ≤ 57) || (65 ≤ c && c ≤ 90) || (97 ≤ c && c ≤ 122) || c = 95

/-- Regex `[0-9]`. -/
def isDigitChar (c : Nat) : Bool := 48 ≤ c && c ≤ 57

/-- The separator class `[\s._-]` of `cleanFilename`. -/
def isSepChar (c : Nat) : Bool := isJSWhitespace c || c = 46 || c = 95 || c = 45

/-- `.replace(/\.\w+$/i, '')`: drop a final dot followed by one or more word
characters (the match, if any, is unique and anchored at the last dot). -/
def stripExtension (name : JSStr) : JSStr :=
  let revName := name.reverse
  let wordRun := revName.takeWhile isWordChar
  if wordRun ≠ [] ∧ revName.getD wordRun.length 0 = 46 ∧ wordRun.length < revName.length
  then (revName.drop (wordRun.length + 1)).reverse
  else name

/-- `.replace(/^\d+[\s._-]+/, '')`: drop a leading digit run followed by a
nonempty separator run. -/
def stripLeadingTrack (name : JSStr) : JSStr :=
  let ds := name.takeWhile isDigitChar
  let rest := name.drop ds.length
  let seps := rest.takeWhile isSepChar
  if ds ≠ [] ∧ seps ≠ [] then rest.drop seps.length else name

/-- `cleanFilename(name)` from file-loader.js. -/
def cleanFilename (name : JSStr) : JSStr :=
  if name = [] then jsOfString "Unknown Track"
  else stripLeadingTrack (stripExtension name)

/-- `tagsFromPath(file)` from file-loader.js. -/
def tagsFromPath (file : JSFile) : TagRecord :=
  let path := jsOr file.relativePath file.name
  let parts := jsSplit 47 path
  let filename := parts.getLastD []
  let cleaned := cleanFilename filename
  let title := if cleaned = [] then none else some cleaned
  let ds := filename.takeWhile isDigitChar
  let track := if ds = [] then none else some ds
  let artist :=
    if 3 ≤ parts.length then some (parts.getD (parts.length - 3) []) else none
  let album :=
    if 3 ≤ parts.length then some (parts.getD (parts.length - 2) [])
    else if parts.length = 2 then some (parts.getD 0 [])
    else none
  { title := title, artist := artist, album := album, track := track, picture := none }

/-- The final fallback step of `parseMetadata`: if the chosen reader produced
`null` or a record whose title, artist and album are all falsy, derive tags
from the path. -/
def resolveTags (tags : Option TagRecord) (file : JSFile) : TagRecord :=
  match tags with
  | none => tagsFromPath file
  | some t =>
    if jsFalsy t.title ∧ jsFalsy t.artist ∧ jsFalsy t.album then tagsFromPath file
    else t

/-- ASCII model of `String.prototype.toLowerCase` (extensions are ASCII). -/
def jsToLower (s : JSStr) : JSStr :=
  s.map fun c => if 65 ≤ c ∧ c ≤ 90 then c + 32 else c

/-- `name.endsWith(suffix)`. -/
def jsEndsWith (s suffix : JSStr) : Bool := suffix.isSuffixOf s

/-- `parseMetadata(file)` from file-loader.js: extension dispatch to a reader,
then the path fallback, on the file's bytes. -/
def parseMetadata (file : JSFile) (bytes : Bytes) : Except JSError TagRecord := do
  let nameL := jsToLower file.name
  let tags : Option TagRecord ←
    if jsEndsWith nameL (jsOfString ".mp3") then do
      pure (some (← parseID3 bytes))
    else if jsEndsWith nameL (jsOfString ".flac") then do
      pure (some (← parseFLAC bytes))
    else if jsEndsWith nameL (jsOfString ".ogg") ∨ jsEndsWith nameL (jsOfString ".opus") then
      pure (some (parseOGG bytes))
    else if jsEndsWith nameL (jsOfString ".m4a") ∨ jsEndsWith nameL (jsOfString ".aac") then do
      pure (some (← parseM4A bytes))
    else pure none
  pure (resolveTags tags file)

/-- `parseInt(s, 10)`: optional sign after whitespace, then a digit run. -/
def jsParseInt10 (s : JSStr) : Option Int :=
  let t := s.dropWhile isJSWhitespace
  let signAndRest : Int × JSStr :=
    match t with
    | 43 :: r => (1, r)
    | 45 :: r => (-1, r)
    | r => (1, r)
  let ds := signAndRest.2.takeWhile isDigitChar
  if ds = [] then none
  else some (signAndRest.1 * (ds.foldl (fun acc d => acc * 10 + (d - 48)) 0 : Nat))

/-- `parseTrackNumber(track)` from file-loader.js: falsy or unparsable
track strings map to the sentinel 9999. -/
def parseTrackNumber (track : Option JSStr) : Int :=
  match track with
  | none => 9999
  | some s =>
    if s = [] then 9999
    else
      match jsParseInt10 s with
      | none => 9999
      | some n => n

/-!
### The scan pipeline's bounded worker pool (`mapWithLimit` + per-file wrapper)

`mapWithLimit(items, limit, fn)` starts `min(limit, items.length)` identical
async workers sharing a cursor `index` and a `results` array. JS tasks run
to completion between `await` points, so claiming an index (`const i =
index++`) is atomic, and completing a file (the `finally` block's
`scanned++; reportProgress(scanned, total)` and the slot write
`results[i] = ...`) is one observable action. Workers are interchangeable,
so the state tracks how many are ready/done plus the set of claimed,
not-yet-completed indices; the scheduler (which worker acts next, and how
long each `fn` takes) is the nondeterminism of the step relation.

`f : α → β` is the per-file function `fn` after its own `try/catch`, hence
total: in `processFiles`, `β` is an option type and a caught per-file
failure returns `null` (`none`). In `results`, `none` models an unwritten
slot (`new Array(n)` holes) and `some v` a written value `v`.
-/

/-- Pool state: shared cursor, results array, progress counter, the log of
`reportProgress` calls, and the worker accounting. -/
structure PoolState (β : Type) where
  idx : Nat
  results : List (Option β)
  scanned : Nat
  log : List (Nat × Nat)
  nReady : Nat
  claimed : Finset Nat
  nDone : Nat
deriving DecidableEq

/-- Initial state: `reportProgress(0, total)` has fired, all
`min(limit, n)` workers are ready. -/
def initPool (β : Type) (n limit : Nat) : PoolState β :=
  { idx := 0, results := List.replicate n none, scanned := 0,
    log := [(0, n)], nReady := min limit n, claimed := ∅, nDone := 0 }

/-- One scheduler step of the worker pool. -/
inductive PoolStep (items : List α) (f : α → β) : PoolState β → PoolState β → Prop
  | claim (s : PoolState β) (hr : 0 < s.nReady) (hi : s.idx < items.length) :
      PoolStep items f s
        { s with idx := s.idx + 1, nReady := s.nReady - 1,
                 claimed := insert s.idx s.claimed }
  | finish (s : PoolState β) (hr : 0 < s.nReady) (hi : items.length ≤ s.idx) :
      PoolStep items f s
        { s with nReady := s.nReady - 1, nDone := s.nDone + 1 }
  | complete (s : PoolState β) (i : Nat) (hc : i ∈ s.claimed) :
      PoolStep items f s
        { s with results := s.results.set i (items[i]?.map f),
                 scanned := s.scanned + 1,
                 log := s.log ++ [(s.scanned + 1, items.length)],
                 claimed := s.claimed.erase i, nReady := s.nReady + 1 }

/-- A state the pool can reach from the initial one. -/
def PoolReachable (items : List α) (f : α → β) (limit : Nat) (s : PoolState β) : Prop :=
  Relation.ReflTransGen (PoolStep items f) (initPool β items.length limit) s

/-- `Promise.all(workers)` has resolved: no worker is ready or awaiting a file. -/
def PoolDone (s : PoolState β) : Prop := s.nReady = 0 ∧ s.claimed = ∅

/-- The per-file task of `processFiles`: `readTags` (or any reader) guarded by
`try/catch`, a failure becoming `null`. -/
def scanOne (reader : α → Except JSError γ) (x : α) : Option γ :=
  (reader x).toOption

/-!
### Grouping into albums (`processFiles`, after the pool finishes)
-/

/-- One track draft pushed into an album entry. -/
structure TrackDraft where
  title : JSStr
  dur : JSStr
  trackNum : Int
  path : JSStr
deriving DecidableEq, Repr

/-- A `albumMap` entry while grouping. -/
structure AlbumEntry where
  albumName : JSStr
  artistName : JSStr
  picture : Option Picture
  tracks : List TrackDraft
deriving DecidableEq, Repr

/-- An emitted track `{ title, dur, path }`. -/
structure TrackOut where
  title : JSStr
  dur : JSStr
  path : JSStr
deriving DecidableEq, Repr

/-- An emitted album. `cover` keeps the picture itself (`none` = the SVG
placeholder): `pictureToURL`'s blob-URL creation is outside the model. -/
structure Album where
  title : JSStr
  artist : JSStr
  cover : Option Picture
  tracks : List TrackOut
deriving DecidableEq, Repr

/-- A surviving (non-null) result of the scan: a file with its tags. -/
structure ParsedItem where
  file : JSFile
  tags : TagRecord
deriving DecidableEq, Repr

/-- The grouping key `` `${tags.album || 'Unknown Album'}|||${tags.artist ||
'Unknown Artist'}` ``. -/
def albumKey (tags : TagRecord) : JSStr :=
  jsOr tags.album (jsOfString "Unknown Album") ++ jsOfString "|||" ++
    jsOr tags.artist (jsOfString "Unknown Artist")

/-- The relative path used as the `fileMap` key and track path. -/
def trackPath (file : JSFile) : JSStr :=
  jsOr file.relativePath (jsOr file.webkitRelativePath file.name)

/-- `.replace(/\.(mp3|m4a|wav|ogg|flac|aac|wma|opus)$/i, '')` of the scan
variant of `cleanFilename`: drop a final dot plus one of the listed audio
extensions (case-insensitive); the match, if any, is the unique such suffix. -/
def stripAudioExtension (name : JSStr) : JSStr :=
  match ["mp3", "m4a", "wav", "ogg", "flac", "aac", "wma", "opus"].find?
      (fun ext => jsEndsWith (jsToLower name) (jsOfString ("." ++ ext))) with
  | some ext => name.take (name.length - (ext.length + 1))
  | none => name

/-- The `cleanFilename(name)` variant used next to the grouping loop: it
strips only the known audio extensions (the dispatcher's variant strips any
`\.\w+$` extension). -/
def cleanFilenameScan (name : JSStr) : JSStr :=
  if name = [] then jsOfString "Unknown Track"
  else stripLeadingTrack (stripAudioExtension name)

/-- The track pushed for one parsed file. -/
def mkTrack (p : ParsedItem) : TrackDraft :=
  { title := jsOr p.tags.title (cleanFilenameScan p.file.name),
    dur := jsOfString "--:--",
    trackNum := parseTrackNumber p.tags.track,
    path := trackPath p.file }

/-- A fresh `albumMap` entry. -/
def newEntry (tags : TagRecord) : AlbumEntry :=
  { albumName := jsOr tags.album (jsOfString "Unknown Album"),
    artistName := jsOr tags.artist (jsOfString "Unknown Artist"),
    picture := none, tracks := [] }

/-- Processing one parsed file against an entry: adopt the first non-null
picture, push the track. -/
def pushTrack (e : AlbumEntry) (p : ParsedItem) : AlbumEntry :=
  { e with
    picture := if e.picture.isNone ∧ p.tags.picture.isSome then p.tags.picture
               else e.picture,
    tracks := e.tracks ++ [mkTrack p] }

/-- Association-list lookup (JS `Map.get`; keys are inserted at most once). -/
def lookupA (k : JSStr) : List (JSStr × AlbumEntry) → Option AlbumEntry
  | [] => none
  | (k', e) :: rest => if k' = k then some e else lookupA k rest

/-- Update the (first) entry for a key in place. -/
def updateA (k : JSStr) (f : AlbumEntry → AlbumEntry) :
    List (JSStr × AlbumEntry) → List (JSStr × AlbumEntry)
  | [] => []
  | (k', e) :: rest =>
    if k' = k then (k', f e) :: rest else (k', e) :: updateA k f rest

/-- One iteration of `processFiles`' grouping loop over an insertion-ordered
`albumMap` (modelled as an association list). -/
def stepAlbum (m : List (JSStr × AlbumEntry)) (p : ParsedItem) :
    List (JSStr × AlbumEntry) :=
  let k := albumKey p.tags
  match lookupA k m with
  | some _ => updateA k (fun e => pushTrack e p) m
  | none => m ++ [(k, pushTrack (newEntry p.tags) p)]

/-- The whole grouping loop. -/
def foldAlbums (parsed : List ParsedItem) : List (JSStr × AlbumEntry) :=
  parsed.foldl stepAlbum []

/-- The track comparator `(a, b) => a.trackNum - b.trackNum || localeCompare`
as a `≤` test; `lc s t` models `s.localeCompare(t) <= 0`. -/
def trackLE (lc : JSStr → JSStr → Bool) (a b : TrackDraft) : Bool :=
  decide (a.trackNum < b.trackNum) || (decide (a.trackNum = b.trackNum) && lc a.title b.title)

/-- The album comparator `(a, b) => a.title.localeCompare(b.title)` as a `≤` test. -/
def albumLE (lc : JSStr → JSStr → Bool) (a b : Album) : Bool := lc a.title b.title

/-- Emit one album from its entry: sort the tracks (JS `Array.prototype.sort`
is stable and comparator-driven; a stable insertion sort models it), project
the draft fields, resolve the cover. -/
def buildAlbum (lc : JSStr → JSStr → Bool) (e : AlbumEntry) : Album :=
  { title := e.albumName, artist := e.artistName, cover := e.picture,
    tracks := (e.tracks.insertionSort fun a b => trackLE lc a b = true).map fun t =>
      { title := t.title, dur := t.dur, path := t.path } }

/-- The grouping stage of `processFiles`: fold into `albumMap`, emit albums,
sort them by title. `lc` abstracts `localeCompare`. -/
def groupAlbums (lc : JSStr → JSStr → Bool) (parsed : List ParsedItem) : List Album :=
  ((foldAlbums parsed).map fun ke => buildAlbum lc ke.2).insertionSort
    fun a b => albumLE lc a b = true

/-!
### Derived characterisations used by the theorems
-/

/-- The code-unit stream `decodeUTF16` draws from (no null-termination): used
to state where the UTF-16 decoders stop. -/
def utf16Codes : Bytes → Bool → List Nat
  | b0 :: b1 :: rest, littleEndian =>
    (if littleEndian then b0 ||| (b1 <<< 8) else (b0 <<< 8) ||| b1) ::
      utf16Codes rest littleEndian
  | _, _ => []

/-- The input records that fall into the group of key `k`, in input order. -/
def recordsFor (k : JSStr) (parsed : List ParsedItem) : List ParsedItem :=
  parsed.filter fun p => albumKey p.tags = k

/-- The album entry the grouping loop builds for key `k`: the first matching
record creates the entry, every matching record pushes its track. -/
def entryFor (k : JSStr) (parsed : List ParsedItem) : AlbumEntry :=
  match recordsFor k parsed with
  | [] => { albumName := [], artistName := [], picture := none, tracks := [] }
  | p :: ps => (p :: ps).foldl pushTrack (newEntry p.tags)

/-- The distinct grouping keys in order of first occurrence (JS `Map`
insertion order). -/
def firstKeys (parsed : List ParsedItem) : List JSStr :=
  parsed.foldl (fun acc p => if albumKey p.tags ∈ acc then acc else acc ++ [albumKey p.tags]) []

/-- The inductive invariant of the worker pool. -/
def PoolInv (items : List α) (f : α → β) (limit : Nat) (s : PoolState β) : Prop :=
  s.idx ≤ items.length ∧
  (∀ i ∈ s.claimed, i < s.idx) ∧
  s.results = (List.range items.length).map
    (fun i => if i < s.idx ∧ i ∉ s.claimed then items[i]?.map f else none) ∧
  s.scanned + s.claimed.card = s.idx ∧
  s.log = (List.range (s.scanned + 1)).map (fun k => (k, items.length)) ∧
  s.nReady + s.claimed.card + s.nDone = min limit items.length ∧
  (0 < s.nDone → items.length ≤ s.idx)

/-- A concrete total order on JS strings standing in for `localeCompare`
(the lexicographic one). -/
def lexLE (a b : JSStr) : Bool := decide (a ≤ b)

/-!
### Concrete inputs used by counterexamples and witnesses
-/

/-- A FLAC file: magic, then a single (last) type-6 PICTURE block of length 32
whose declared MIME length 24 fills the block, leaving no room for the
description-length field. -/
def flacBadPictureFile : Bytes :=
  [0x66, 0x4C, 0x61, 0x43, 0x86, 0, 0, 32, 0, 0, 0, 3, 0, 0, 0, 24] ++
    List.replicate 24 97

/-- The file `ArtistX/AlbumY/02 - Song.flac` of the spec's example. -/
def fileSong : JSFile :=
  { name := jsOfString "02 - Song.flac"
    relativePath := some (jsOfString "ArtistX/AlbumY/02 - Song.flac")
    webkitRelativePath := none }

/-- An MP3 whose ID3v2.3 tag holds one TIT2 frame with encoding byte 9
(not 0–3) and payload "Hi". -/
def id3UnknownEncFile : Bytes :=
  [0x49, 0x44, 0x33, 3, 0, 0, 0, 0, 0, 13,
   84, 73, 84, 50, 0, 0, 0, 3, 0, 0, 9, 72, 105]

/-- An ID3v2.3 tag body: a zero-size TXXX frame followed by a well-formed
TIT2 frame (encoding 0, "Hi") that lies fully within bounds. -/
def id3ZeroSizeBody : Bytes :=
  [84, 88, 88, 88, 0, 0, 0, 0, 0, 0] ++
    [84, 73, 84, 50, 0, 0, 0, 3, 0, 0, 0, 72, 105]

/-- An MP4 byte range: 4 zero bytes (a box of declared size 0), then a
well-formed 12-byte `moov` box. -/
def m4aResyncBuf : Bytes :=
  [0, 0, 0, 0, 0, 0, 0, 12] ++ jsOfString "moov" ++ [1, 2, 3, 4]

/-- A record whose title, artist and album are present but empty strings. -/
def emptyStrTags : TagRecord :=
  { title := some [], artist := some [], album := some [], track := none,
    picture := none }

/-- The file `A/B/c.mp3`. -/
def fileABC : JSFile :=
  { name := jsOfString "c.mp3"
    relativePath := some (jsOfString "A/B/c.mp3")
    webkitRelativePath := none }

/-- Two parsed records in one album (out-of-order tracks) plus one in another. -/
def c6Parsed : List ParsedItem :=
  [ { file := { name := jsOfString "b.mp3", relativePath := some (jsOfString "X/Al/b.mp3")
                webkitRelativePath := none }
      tags := { title := some (jsOfString "Beta"), artist := some (jsOfString "X")
                album := some (jsOfString "Al"), track := some (jsOfString "2")
                picture := none } }
  , { file := { name := jsOfString "a.mp3", relativePath := some (jsOfString "X/Al/a.mp3")
                webkitRelativePath := none }
      tags := { title := some (jsOfString "Alpha"), artist := some (jsOfString "X")
                album := some (jsOfString "Al"), track := some (jsOfString "1")
                picture := some { mime := jsOfString "image/png", data := [7] } } }
  , { file := { name := jsOfString "c.mp3", relativePath := none
                webkitRelativePath := none }
      tags := { title := some (jsOfString "Gamma"), artist := none
                album := none, track := none, picture := none } } ]

/-- The single-item, limit-1 pool run of the C2 witness: the per-file task
fails (is caught) and yields `null`. -/
def c2Items : List Nat := [0]

/-- A per-file task whose reader throws; `scanOne`'s catch turns the failure
into `null`. -/
def c2Task : Nat → Option Nat := scanOne fun _ => Except.error JSError.rangeError

/-- The pool state after claim, complete, finish on `c2Items`. -/
def c2FinalState : PoolState (Option Nat) :=
  { idx := 1, results := [some none], scanned := 1, log := [(0, 1), (1, 1)],
    nReady := 0, claimed := ∅, nDone := 1 }

/-- The pool state after the single worker claims index 0. -/
def c2MidState1 : PoolState (Option Nat) :=
  { idx := 1, results := [none], scanned := 0, log := [(0, 1)],
    nReady := 0, claimed := {0}, nDone := 0 }

/-- The pool state after file 0 completes (its caught failure stored as null). -/
def c2MidState2 : PoolState (Option Nat) :=
  { idx := 1, results := [some none], scanned := 1, log := [(0, 1), (1, 1)],
    nReady := 1, claimed := ∅, nDone := 0 }


/-!
## Theorems
-/


theorem lor_eq_add_of_lt (a b k : Nat) (hb : b < 2 ^ k) :
    (a * 2 ^ k) ||| b = a * 2 ^ k + b := by
  apply Nat.eq_of_testBit_eq
  intro i
  rw [Nat.testBit_lor]
  rcases Nat.lt_or_ge i k with h | h
  · have epow : a * 2 ^ k = a * 2 ^ (k - i) * 2 ^ i := by
      rw [Nat.mul_assoc, ← pow_add]
      congr 2
      omega
    have e1 : a * 2 ^ k / 2 ^ i = a * 2 ^ (k - i) := by
      rw [epow, Nat.mul_div_cancel _ (Nat.pos_pow_of_pos i (by norm_num))]
    have e2 : (a * 2 ^ k + b) / 2 ^ i = a * 2 ^ (k - i) + b / 2 ^ i := by
      rw [epow, Nat.add_comm, Nat.add_mul_div_right _ _ (Nat.pos_pow_of_pos i (by norm_num)),
        Nat.add_comm]
    have hev : a * 2 ^ (k - i) % 2 = 0 := by
      have h2 : (2 : Nat) ∣ a * 2 ^ (k - i) := Dvd.dvd.mul_left (dvd_pow_self 2 (by omega)) a
      omega
    rw [Nat.testBit_to_div_mod, Nat.testBit_to_div_mod, Nat.testBit_to_div_mod, e1, e2]
    rw [Nat.add_mod, hev]
    simp [hev]
  · have hb' : b < 2 ^ i := lt_of_lt_of_le hb (Nat.pow_le_pow_right (by norm_num) h)
    have hbb : b.testBit i = false := Nat.testBit_eq_false_of_lt hb'
    have e3 : (a * 2 ^ k + b) / 2 ^ i = a * 2 ^ k / 2 ^ i := by
      have hki : (2 : Nat) ^ i = 2 ^ k * 2 ^ (i - k) := by rw [← pow_add]; congr 1; omega
      rw [hki, ← Nat.div_div_eq_div_mul, ← Nat.div_div_eq_div_mul]
      congr 1
      rw [Nat.mul_comm a, Nat.mul_add_div (Nat.pos_pow_of_pos k (by norm_num)),
        Nat.mul_div_cancel_left _ (Nat.pos_pow_of_pos k (by norm_num)),
        Nat.div_eq_of_lt hb, Nat.add_zero]
    rw [hbb, Nat.testBit_to_div_mod, Nat.testBit_to_div_mod, e3]
    simp

theorem syncsafe_bits_arith (x0 x1 x2 x3 : Nat) (h1 : x1 < 128) (h2 : x2 < 128)
    (h3 : x3 < 128) :
    (((x0 <<< 21) ||| (x1 <<< 14)) ||| (x2 <<< 7)) ||| x3 =
      x0 * 2 ^ 21 + x1 * 2 ^ 14 + x2 * 2 ^ 7 + x3 := by
  rw [Nat.shiftLeft_eq, Nat.shiftLeft_eq, Nat.shiftLeft_eq]
  rw [lor_eq_add_of_lt x0 (x1 * 2 ^ 14) 21 (by nlinarith)]
  have e1 : x0 * 2 ^ 21 + x1 * 2 ^ 14 = (x0 * 2 ^ 7 + x1) * 2 ^ 14 := by ring
  rw [e1, lor_eq_add_of_lt _ (x2 * 2 ^ 7) 14 (by nlinarith)]
  have e2 : (x0 * 2 ^ 7 + x1) * 2 ^ 14 + x2 * 2 ^ 7 =
      ((x0 * 2 ^ 7 + x1) * 2 ^ 7 + x2) * 2 ^ 7 := by ring
  rw [e2, lor_eq_add_of_lt _ x3 7 h3]

theorem byte_and_127 (b : Nat) : (b % 256) &&& 127 = b % 128 := by
  have h : (b % 256) &&& 127 = (b % 256) % 128 := Nat.and_pow_two_sub_one_eq_mod (b % 256) 7
  rw [h, Nat.mod_mod_of_dvd b (by norm_num)]

/-- C7: the syncsafe decoder maps four input bytes to
`((b0 & 0x7F) << 21) | ((b1 & 0x7F) << 14) | ((b2 & 0x7F) << 7) | (b3 & 0x7F)`:
each byte contributes only its low 7 bits (the high bit is ignored, hence the
`% 128`), most-significant byte first; decoding `[0x00, 0x00, 0x02, 0x01]`
yields 257. -/
theorem decodeSyncsafe_spec :
    (∀ b0 b1 b2 b3 : Nat, decodeSyncsafe [b0, b1, b2, b3] 0 =
      .ok ((b0 % 128) * 2 ^ 21 + (b1 % 128) * 2 ^ 14 + (b2 % 128) * 2 ^ 7 + b3 % 128)) ∧
    decodeSyncsafe [0x00, 0x00, 0x02, 0x01] 0 = .ok 257 := by
  constructor
  · intro b0 b1 b2 b3
    have hred : decodeSyncsafe [b0, b1, b2, b3] 0 =
        .ok (((((b0 % 256) &&& 127) <<< 21) ||| (((b1 % 256) &&& 127) <<< 14)) |||
          (((b2 % 256) &&& 127) <<< 7) ||| ((b3 % 256) &&& 127)) := rfl
    rw [hred, byte_and_127, byte_and_127, byte_and_127, byte_and_127,
      syncsafe_bits_arith _ _ _ _ (Nat.mod_lt _ (by norm_num)) (Nat.mod_lt _ (by norm_num))
        (Nat.mod_lt _ (by norm_num))]
  · rfl




/-- C1 (code bug): the claim says every reader returns a record for every
buffer, in particular `parseFLAC` for every buffer passing the `fLaC` magic
check, even when a type-6 picture block's declared MIME length runs to the
block's end. On this buffer the magic check passes, yet `parseFLACPicture`'s
unguarded `view.getUint32(pos)` read of the description length (offset
`8 + mimeLen = 32` of a 32-byte block) throws a `RangeError` that propagates
out of `parseFLAC`, contradicting the spec's propagation policy; the scan
pipeline's per-file catch then records `null` and drops the file. -/
theorem parseFLAC_rangeError_on_bad_picture :
    u32be flacBadPictureFile 0 = 0x664C6143 ∧
    parseFLAC flacBadPictureFile = .error .rangeError ∧
    scanOne parseFLAC flacBadPictureFile = none := ⟨rfl, rfl, rfl⟩

/-- C5 counterexample: the claim says a box with declared size < 8 aborts the
walk and nothing after it is interpreted. In `findAtom`, after a size-0 word
at offset 0 the scan continues and still finds the well-formed `moov` box
that starts at offset 4, so the claim is false as stated. -/
theorem findAtom_resyncs_after_malformed_size :
    findAtom m4aResyncBuf 0 16 (jsOfString "moov") =
      .ok (some { dataStart := 12, endPos := 16 }) := rfl

/-- C5 amended: only the `ilst` item loop treats a declared size < 8 as
malformed and aborts; `findAtom` instead advances 4 bytes past the bad size
word and keeps scanning, so later boxes of the same parent can still be
found. -/
theorem malformed_size_behaviour :
    (∀ (fuel : Nat) (view : Bytes) (pos endPos : Nat) (name : JSStr) (s : Nat),
        pos + 8 ≤ endPos → getUint32 view pos = .ok s → s < 8 →
        findAtomLoop (fuel + 1) view pos endPos name =
          findAtomLoop fuel view (pos + 4) endPos name) ∧
    (∀ (fuel : Nat) (buf : Bytes) (pos endPos : Nat) (result : TagRecord) (s : Nat),
        pos + 8 ≤ endPos → getUint32 buf pos = .ok s → s < 8 →
        ilstLoop (fuel + 1) buf pos endPos result = .ok result) := by
  constructor
  · intro fuel view pos endPos name s hpos hread hs
    rw [findAtomLoop]
    simp only [if_pos hpos, hread, bind, Except.bind, if_pos hs]
  · intro fuel buf pos endPos result s hpos hread hs
    rw [ilstLoop]
    simp only [if_pos hpos, hread, bind, Except.bind]
    rw [if_pos (Or.inl hs)]
    rfl

theorem malformed_size_behaviour_witness :
    findAtomLoop 17 m4aResyncBuf 0 16 (jsOfString "moov") =
      findAtomLoop 16 m4aResyncBuf 4 16 (jsOfString "moov") ∧
    ilstLoop 17 m4aResyncBuf 0 16 emptyTag = .ok emptyTag := by
  refine ⟨malformed_size_behaviour.1 16 m4aResyncBuf 0 16 (jsOfString "moov") 0 (by norm_num) rfl (by norm_num),
    malformed_size_behaviour.2 16 m4aResyncBuf 0 16 emptyTag 0 (by norm_num) rfl (by norm_num)⟩

/-- C8 counterexample: the claim says a text frame with an encoding selector
outside 0–3 leaves the field unset. On an ID3v2.3 tag whose TIT2 frame has
encoding byte 9 and payload "Hi", `parseID3` sets `title` to "Hi" (decoded as
Latin-1), not to `null`. -/
theorem unknown_encoding_sets_title :
    parseID3 id3UnknownEncFile =
      .ok { title := some [72, 105], artist := none, album := none, track := none,
            picture := none } ∧
    (some [72, 105] : Option JSStr) ≠ none := ⟨rfl, by decide⟩

theorem decodeLatin1_takeWhile (bytes : Bytes) :
    decodeLatin1 bytes = bytes.takeWhile (fun b => decide (b ≠ 0)) := by
  induction bytes with
  | nil => rfl
  | cons b rest ih =>
    by_cases hb : b = 0
    · subst hb
      simp [decodeLatin1, List.takeWhile]
    · simp [decodeLatin1, hb, List.takeWhile, ih]

/-- C8 amended: a text-encoding selector outside 0–3 does not leave the field
unset; `decodeString`'s default branch decodes the payload as Latin-1
(ISO-8859-1, terminated at the first zero byte), and the field is assigned
that text. The rest of the record is unaffected either way. -/
theorem unknown_encoding_decodes_latin1 :
    ∀ (bytes : Bytes) (e : Nat), e ≠ 0 → e ≠ 1 → e ≠ 2 → e ≠ 3 →
      decodeString bytes e = bytes.takeWhile (fun b => decide (b ≠ 0)) := by
  intro bytes e h0 h1 h2 h3
  rw [decodeString]
  simp only [if_neg h0, if_neg h1, if_neg h2, if_neg h3]
  exact decodeLatin1_takeWhile bytes

theorem unknown_encoding_decodes_latin1_witness :
    (9 : Nat) ≠ 0 ∧ decodeString [72, 105] 9 = [72, 105] :=
  ⟨by norm_num, unknown_encoding_decodes_latin1 [72, 105] 9 (by norm_num) (by norm_num)
    (by norm_num) (by norm_num)⟩

/-- C10: in the ID3v2 frame loop, a frame whose declared size reads as 0
terminates the entire loop (`if (frameSize === 0 || ...) break`): the loop
returns the record accumulated so far, so no frame after the zero-size frame
is ever decoded, even a well-formed wanted frame within bounds. -/
theorem zero_size_frame_stops_loop :
    ∀ (fuel : Nat) (body : Bytes) (major pos : Nat) (result : TagRecord),
      pos + 10 ≤ body.length → id3FrameSize body major pos = .ok 0 →
      id3FrameLoop (fuel + 1) body major pos result = .ok result := by
  intro fuel body major pos result hpos hsize
  rw [id3FrameLoop]
  have h0 : pos < body.length := by omega
  have h1 : pos + 1 < body.length := by omega
  have h2 : pos + 2 < body.length := by omega
  have h3 : pos + 3 < body.length := by omega
  simp only [if_pos hpos, getUint8, if_pos h0, if_pos h1, if_pos h2, if_pos h3,
    bind, Except.bind, hsize]
  by_cases hc : body.getD pos 0 % 256 = 0
  · simp [hc, pure, Except.pure]
  · simp only [if_neg hc]
    simp [pure, Except.pure]

theorem zero_size_frame_stops_loop_witness :
    0 + 10 ≤ id3ZeroSizeBody.length ∧
    id3FrameLoop (id3ZeroSizeBody.length + 1) id3ZeroSizeBody 3 0 emptyTag = .ok emptyTag :=
  ⟨by decide, zero_size_frame_stops_loop id3ZeroSizeBody.length id3ZeroSizeBody 3 0 emptyTag
    (by decide) rfl⟩

/-- C4 counterexample: the claim says a trailing null terminator ends the
decoded string for encoding 3 (UTF-8) as well. For the frame payload
`[3, 'A', 0, 'B']` the code decodes the whole payload with `TextDecoder`,
yielding "A\u0000B", not "A": null does not terminate UTF-8 text. -/
theorem utf8_null_not_terminator :
    decodeTextFrame [3, 65, 0, 66] = [65, 0, 66] ∧ ([65, 0, 66] : JSStr) ≠ [65] :=
  ⟨rfl, by decide⟩




theorem decodeUTF16_takeWhile : ∀ (bytes : Bytes) (le : Bool),
    decodeUTF16 bytes le = (utf16Codes bytes le).takeWhile (fun c => decide (c ≠ 0))
  | [], _ => rfl
  | [_], _ => rfl
  | b0 :: b1 :: rest, le => by
    rw [decodeUTF16, utf16Codes]
    by_cases h : (if le then b0 ||| (b1 <<< 8) else (b0 <<< 8) ||| b1) = 0
    · simp [h, List.takeWhile]
    · simp [h, List.takeWhile, decodeUTF16_takeWhile rest le]

/-- C4 amended: the first payload byte selects the encoding and the rest is
decoded and trimmed; a null terminator ends the string for encodings 0
(single zero byte), 1 and 2 (double zero byte) — but for encoding 3 (UTF-8)
the entire remaining payload is decoded and null bytes are kept. -/
theorem text_frame_null_termination :
    (∀ data : Bytes, 2 ≤ data.length →
      decodeTextFrame data = jsTrim (decodeString (data.drop 1) (data.getD 0 0))) ∧
    (∀ bytes : Bytes, decodeString bytes 0 = bytes.takeWhile (fun b => decide (b ≠ 0))) ∧
    (∀ bytes : Bytes, 2 ≤ bytes.length →
      decodeString bytes 1 =
        (utf16Codes (bytes.drop 2) (bytes.getD 0 0 = 0xFF ∧ bytes.getD 1 0 = 0xFE)).takeWhile
          (fun c => decide (c ≠ 0))) ∧
    (∀ bytes : Bytes, decodeString bytes 2 =
      (utf16Codes bytes false).takeWhile (fun c => decide (c ≠ 0))) ∧
    (∀ bytes : Bytes, decodeString bytes 3 = decodeUTF8 bytes) ∧
    decodeUTF8 [65, 0, 66] = [65, 0, 66] := by
  refine ⟨?_, ?_, ?_, ?_, ?_, rfl⟩
  · intro data h2
    rw [decodeTextFrame, if_neg (by omega)]
  · intro bytes
    rw [decodeString, if_pos rfl]
    exact decodeLatin1_takeWhile bytes
  · intro bytes h2
    rw [decodeString, if_neg (by norm_num), if_pos rfl, if_neg (by omega)]
    exact decodeUTF16_takeWhile _ _
  · intro bytes
    rw [decodeString, if_neg (by norm_num), if_neg (by norm_num), if_pos rfl]
    exact decodeUTF16_takeWhile _ _
  · intro bytes
    rfl

theorem text_frame_null_termination_witness :
    2 ≤ ([0, 65, 0, 66] : Bytes).length ∧
    decodeTextFrame [0, 65, 0, 66] = jsTrim (decodeString [65, 0, 66] 0) :=
  ⟨by norm_num, text_frame_null_termination.1 [0, 65, 0, 66] (by norm_num)⟩




/-- C3: when the chosen reader yields a record with no title, artist and
album, the dispatcher derives tags from the relative path: title is the
filename minus extension and leading track-number prefix (or `null` when that
leaves nothing), with ≥ 3 path segments the third- and second-from-last
segments become artist and album, with exactly 2 segments the first becomes
the album and artist stays absent, and a leading digit run becomes the track;
on "ArtistX/AlbumY/02 - Song.flac" this gives artist "ArtistX", album
"AlbumY", track "02", title "Song". -/
theorem path_fallback_spec :
    (∀ (t : TagRecord) (file : JSFile), t.title = none → t.artist = none → t.album = none →
      resolveTags (some t) file = tagsFromPath file) ∧
    (∀ file : JSFile,
      (3 ≤ (jsSplit 47 (jsOr file.relativePath file.name)).length →
        (tagsFromPath file).artist =
          some ((jsSplit 47 (jsOr file.relativePath file.name)).getD
            ((jsSplit 47 (jsOr file.relativePath file.name)).length - 3) []) ∧
        (tagsFromPath file).album =
          some ((jsSplit 47 (jsOr file.relativePath file.name)).getD
            ((jsSplit 47 (jsOr file.relativePath file.name)).length - 2) [])) ∧
      ((jsSplit 47 (jsOr file.relativePath file.name)).length = 2 →
        (tagsFromPath file).artist = none ∧
        (tagsFromPath file).album =
          some ((jsSplit 47 (jsOr file.relativePath file.name)).getD 0 [])) ∧
      (tagsFromPath file).title =
        (if cleanFilename ((jsSplit 47 (jsOr file.relativePath file.name)).getLastD []) = []
         then none
         else some (cleanFilename ((jsSplit 47 (jsOr file.relativePath file.name)).getLastD []))) ∧
      (tagsFromPath file).track =
        (if ((jsSplit 47 (jsOr file.relativePath file.name)).getLastD []).takeWhile isDigitChar = []
         then none
         else some (((jsSplit 47 (jsOr file.relativePath file.name)).getLastD []).takeWhile isDigitChar))) ∧
    tagsFromPath fileSong =
      { title := some (jsOfString "Song"), artist := some (jsOfString "ArtistX"),
        album := some (jsOfString "AlbumY"), track := some (jsOfString "02"),
        picture := none } := by
  refine ⟨?_, ?_, rfl⟩
  · intro t file ht ha hal
    rw [resolveTags, if_pos]
    refine ⟨?_, ?_, ?_⟩ <;> simp [jsFalsy, ht, ha, hal]
  · intro file
    refine ⟨?_, ?_, rfl, rfl⟩
    · intro h3
      constructor
      · simp only [tagsFromPath]
        rw [if_pos h3]
      · simp only [tagsFromPath]
        rw [if_pos h3]
    · intro h2
      constructor
      · simp only [tagsFromPath]
        rw [if_neg (by omega)]
      · simp only [tagsFromPath]
        rw [if_neg (by omega), if_pos h2]

theorem path_fallback_spec_witness :
    resolveTags (some emptyTag) fileSong = tagsFromPath fileSong ∧
    3 ≤ (jsSplit 47 (jsOr fileSong.relativePath fileSong.name)).length ∧
    (tagsFromPath fileSong).artist =
      some ((jsSplit 47 (jsOr fileSong.relativePath fileSong.name)).getD
        ((jsSplit 47 (jsOr fileSong.relativePath fileSong.name)).length - 3) []) :=
  ⟨path_fallback_spec.1 emptyTag fileSong rfl rfl rfl, by decide,
    ((path_fallback_spec.2.1 fileSong).1 (by decide)).1⟩

/-- C9 counterexample: the claim says empty-string fields are semantically
distinct from absent ones, so a record whose title/artist/album are all `""`
should not trigger the path fallback nor the "Unknown" defaults. The code
uses JS truthiness: on such a record the dispatcher falls back to the path
(artist becomes "A" from "A/B/c.mp3") and the grouping default replaces an
empty album with "Unknown Album". -/
theorem empty_string_treated_as_absent :
    resolveTags (some emptyStrTags) fileABC = tagsFromPath fileABC ∧
    resolveTags (some emptyStrTags) fileABC ≠ emptyStrTags ∧
    (resolveTags (some emptyStrTags) fileABC).artist = some (jsOfString "A") ∧
    jsOr emptyStrTags.album (jsOfString "Unknown Album") = jsOfString "Unknown Album" :=
  ⟨rfl, by decide, rfl, rfl⟩

/-- C9 amended: the dispatcher and grouping stages treat the empty string
like an absent field (JS falsiness): all-empty title/artist/album triggers
the path-derived fallback, and an empty album name falls back to
"Unknown Album". -/
theorem empty_string_is_falsy :
    (∀ o : Option JSStr, jsFalsy o = true ↔ o = none ∨ o = some []) ∧
    (∀ (t : TagRecord) (file : JSFile),
      t.title = some [] → t.artist = some [] → t.album = some [] →
      resolveTags (some t) file = tagsFromPath file) ∧
    (∀ tags : TagRecord, tags.album = some [] →
      jsOr tags.album (jsOfString "Unknown Album") = jsOfString "Unknown Album") := by
  refine ⟨?_, ?_, ?_⟩
  · intro o
    match o with
    | none => simp [jsFalsy]
    | some s => simp [jsFalsy, List.isEmpty_iff]
  · intro t file ht ha hal
    rw [resolveTags, if_pos]
    refine ⟨?_, ?_, ?_⟩ <;> simp [jsFalsy, ht, ha, hal]
  · intro tags hal
    rw [hal]
    rfl

theorem empty_string_is_falsy_witness :
    emptyStrTags.title = some [] ∧
    resolveTags (some emptyStrTags) fileABC = tagsFromPath fileABC :=
  ⟨rfl, empty_string_is_falsy.2.1 emptyStrTags fileABC rfl rfl rfl⟩





theorem firstKeys_foldl_mem : ∀ (rs : List ParsedItem) (acc : List JSStr) (k : JSStr),
    (k ∈ rs.foldl
      (fun acc p => if albumKey p.tags ∈ acc then acc else acc ++ [albumKey p.tags]) acc) ↔
    k ∈ acc ∨ ∃ p ∈ rs, albumKey p.tags = k := by
  intro rs
  induction rs with
  | nil => simp
  | cons r rs ih =>
    intro acc k
    simp only [List.foldl_cons]
    rw [ih]
    by_cases h : albumKey r.tags ∈ acc
    · rw [if_pos h]
      constructor
      · rintro (h1 | h2)
        · exact Or.inl h1
        · exact Or.inr ⟨h2.choose, List.mem_cons_of_mem r h2.choose_spec.1, h2.choose_spec.2⟩
      · rintro (h1 | ⟨p, hp, he⟩)
        · exact Or.inl h1
        · rcases List.mem_cons.mp hp with rfl | hmem
          · exact Or.inl (he ▸ h)
          · exact Or.inr ⟨p, hmem, he⟩
    · rw [if_neg h]
      constructor
      · rintro (h1 | h2)
        · rcases List.mem_append.mp h1 with h1 | h1
          · exact Or.inl h1
          · exact Or.inr ⟨r, List.mem_cons_self r rs, (List.mem_singleton.mp h1).symm⟩
        · exact Or.inr ⟨h2.choose, List.mem_cons_of_mem r h2.choose_spec.1, h2.choose_spec.2⟩
      · rintro (h1 | ⟨p, hp, he⟩)
        · exact Or.inl (List.mem_append.mpr (Or.inl h1))
        · rcases List.mem_cons.mp hp with rfl | hmem
          · exact Or.inl (List.mem_append.mpr (Or.inr (List.mem_singleton.mpr he.symm)))
          · exact Or.inr ⟨p, hmem, he⟩

theorem mem_firstKeys (parsed : List ParsedItem) (k : JSStr) :
    k ∈ firstKeys parsed ↔ ∃ p ∈ parsed, albumKey p.tags = k := by
  rw [firstKeys, firstKeys_foldl_mem]
  simp

theorem firstKeys_foldl_nodup : ∀ (rs : List ParsedItem) (acc : List JSStr),
    acc.Nodup →
    (rs.foldl
      (fun acc p => if albumKey p.tags ∈ acc then acc else acc ++ [albumKey p.tags]) acc).Nodup := by
  intro rs
  induction rs with
  | nil => exact fun acc h => h
  | cons r rs ih =>
    intro acc hacc
    simp only [List.foldl_cons]
    by_cases h : albumKey r.tags ∈ acc
    · rw [if_pos h]
      exact ih acc hacc
    · rw [if_neg h]
      apply ih
      simp [List.nodup_append, hacc, h]

theorem firstKeys_nodup (parsed : List ParsedItem) : (firstKeys parsed).Nodup :=
  firstKeys_foldl_nodup parsed [] List.nodup_nil

theorem firstKeys_append (rs : List ParsedItem) (r : ParsedItem) :
    firstKeys (rs ++ [r]) =
      if albumKey r.tags ∈ firstKeys rs then firstKeys rs
      else firstKeys rs ++ [albumKey r.tags] := by
  rw [firstKeys, List.foldl_append]
  rfl

theorem foldl_pushTrack_tracks : ∀ (l : List ParsedItem) (e : AlbumEntry),
    (l.foldl pushTrack e).tracks = e.tracks ++ l.map mkTrack := by
  intro l
  induction l with
  | nil => simp
  | cons r l ih =>
    intro e
    simp only [List.foldl_cons, List.map_cons]
    rw [ih]
    simp [pushTrack]

theorem foldl_pushTrack_albumName : ∀ (l : List ParsedItem) (e : AlbumEntry),
    (l.foldl pushTrack e).albumName = e.albumName := by
  intro l
  induction l with
  | nil => exact fun e => rfl
  | cons r l ih =>
    intro e
    simp only [List.foldl_cons]
    rw [ih]
    rfl

theorem foldl_pushTrack_artistName : ∀ (l : List ParsedItem) (e : AlbumEntry),
    (l.foldl pushTrack e).artistName = e.artistName := by
  intro l
  induction l with
  | nil => exact fun e => rfl
  | cons r l ih =>
    intro e
    simp only [List.foldl_cons]
    rw [ih]
    rfl

theorem foldl_pushTrack_picture : ∀ (l : List ParsedItem) (e : AlbumEntry),
    (l.foldl pushTrack e).picture =
      match e.picture with
      | some pic => some pic
      | none => l.findSome? fun p => p.tags.picture := by
  intro l
  induction l with
  | nil =>
    intro e
    match he : e.picture with
    | some pic => simp [he]
    | none => simp [he]
  | cons r l ih =>
    intro e
    simp only [List.foldl_cons]
    rw [ih]
    match he : e.picture with
    | some pic => simp [pushTrack, he, List.findSome?_cons]
    | none =>
      match hr : r.tags.picture with
      | some q => simp [pushTrack, he, hr, List.findSome?_cons]
      | none => simp [pushTrack, he, hr, List.findSome?_cons]

theorem lookupA_map : ∀ (ks : List JSStr) (g : JSStr → AlbumEntry) (k : JSStr),
    lookupA k (ks.map fun k' => (k', g k')) = if k ∈ ks then some (g k) else none := by
  intro ks g
  induction ks with
  | nil => intro k; rfl
  | cons k' ks ih =>
    intro k
    simp only [List.map_cons, lookupA]
    by_cases he : k' = k
    · subst he
      simp
    · rw [if_neg he, ih]
      by_cases hm : k ∈ ks
      · rw [if_pos hm, if_pos (List.mem_cons_of_mem k' hm)]
      · rw [if_neg hm, if_neg]
        simp [he, hm, List.mem_cons]
        exact fun h => absurd h.symm he

theorem updateA_map : ∀ (ks : List JSStr) (g : JSStr → AlbumEntry)
    (f : AlbumEntry → AlbumEntry) (k : JSStr), k ∈ ks → ks.Nodup →
    updateA k f (ks.map fun k' => (k', g k')) =
      ks.map fun k' => (k', if k' = k then f (g k') else g k') := by
  intro ks g f
  induction ks with
  | nil => intro k h; exact absurd h (List.not_mem_nil k)
  | cons k' ks ih =>
    intro k hmem hnd
    simp only [List.map_cons, updateA]
    by_cases he : k' = k
    · subst he
      rw [if_pos rfl, if_pos rfl]
      congr 1
      apply List.map_congr_left
      intro k'' hk''
      have : k'' ≠ k' := fun h => (List.nodup_cons.mp hnd).1 (h ▸ hk'')
      rw [if_neg this]
    · rw [if_neg he, if_neg he, ih k (by
        rcases List.mem_cons.mp hmem with h | h
        · exact absurd h.symm he
        · exact h) (List.nodup_cons.mp hnd).2]

theorem recordsFor_append (k : JSStr) (rs : List ParsedItem) (r : ParsedItem) :
    recordsFor k (rs ++ [r]) =
      recordsFor k rs ++ if albumKey r.tags = k then [r] else [] := by
  rw [recordsFor, recordsFor, List.filter_append]
  congr 1
  by_cases h : albumKey r.tags = k
  · simp [h]
  · simp [h]

theorem recordsFor_ne_nil_iff (parsed : List ParsedItem) (k : JSStr) :
    k ∈ firstKeys parsed ↔ recordsFor k parsed ≠ [] := by
  rw [mem_firstKeys, recordsFor, Ne, List.filter_eq_nil_iff]
  simp

theorem entryFor_append_other (k : JSStr) (rs : List ParsedItem) (r : ParsedItem)
    (h : albumKey r.tags ≠ k) : entryFor k (rs ++ [r]) = entryFor k rs := by
  rw [entryFor, entryFor, recordsFor_append, if_neg h, List.append_nil]

theorem entryFor_append_matching (k : JSStr) (rs : List ParsedItem) (r : ParsedItem)
    (h : albumKey r.tags = k) (hne : recordsFor k rs ≠ []) :
    entryFor k (rs ++ [r]) = pushTrack (entryFor k rs) r := by
  rw [entryFor, entryFor, recordsFor_append, if_pos h]
  match hrec : recordsFor k rs with
  | [] => exact absurd hrec hne
  | p :: ps =>
    show List.foldl pushTrack (newEntry p.tags) (p :: (ps ++ [r])) =
      pushTrack (List.foldl pushTrack (newEntry p.tags) (p :: ps)) r
    rw [show p :: (ps ++ [r]) = (p :: ps) ++ [r] from rfl, List.foldl_append,
      List.foldl_cons, List.foldl_nil]

theorem entryFor_append_new (k : JSStr) (rs : List ParsedItem) (r : ParsedItem)
    (h : albumKey r.tags = k) (hnil : recordsFor k rs = []) :
    entryFor k (rs ++ [r]) = pushTrack (newEntry r.tags) r := by
  rw [entryFor, recordsFor_append, if_pos h, hnil]
  rfl

theorem foldAlbums_canonical (parsed : List ParsedItem) :
    foldAlbums parsed = (firstKeys parsed).map fun k => (k, entryFor k parsed) := by
  induction parsed using List.reverseRecOn with
  | nil => rfl
  | append_singleton rs r ih =>
    have hstep : foldAlbums (rs ++ [r]) = stepAlbum (foldAlbums rs) r := by
      rw [foldAlbums, foldAlbums, List.foldl_append, List.foldl_cons, List.foldl_nil]
    rw [hstep, ih, stepAlbum, lookupA_map]
    by_cases hk : albumKey r.tags ∈ firstKeys rs
    · rw [if_pos hk]
      simp only []
      rw [updateA_map _ _ _ _ hk (firstKeys_nodup rs), firstKeys_append, if_pos hk]
      apply List.map_congr_left
      intro k' hk'
      by_cases he : k' = albumKey r.tags
      · rw [if_pos he, entryFor_append_matching k' rs r he.symm
          ((recordsFor_ne_nil_iff rs k').mp (he ▸ hk))]
      · rw [if_neg he, entryFor_append_other k' rs r (fun h => he h.symm)]
    · rw [if_neg hk]
      simp only []
      rw [firstKeys_append, if_neg hk, List.map_append]
      congr 1
      · apply List.map_congr_left
        intro k' hk'
        have : albumKey r.tags ≠ k' := fun h => hk (h ▸ hk')
        rw [entryFor_append_other k' rs r this]
      · simp only [List.map_cons, List.map_nil]
        rw [entryFor_append_new (albumKey r.tags) rs r rfl
          (not_not.mp fun h => hk ((recordsFor_ne_nil_iff rs (albumKey r.tags)).mpr h))]


theorem trackLE_total (lc : JSStr → JSStr → Bool)
    (hTot : ∀ a b, lc a b = true ∨ lc b a = true) :
    ∀ a b : TrackDraft, trackLE lc a b = true ∨ trackLE lc b a = true := by
  intro a b
  simp only [trackLE, Bool.or_eq_true, Bool.and_eq_true, decide_eq_true_eq]
  rcases lt_trichotomy a.trackNum b.trackNum with h | h | h
  · exact Or.inl (Or.inl h)
  · rcases hTot a.title b.title with ht | ht
    · exact Or.inl (Or.inr ⟨h, ht⟩)
    · exact Or.inr (Or.inr ⟨h.symm, ht⟩)
  · exact Or.inr (Or.inl h)

theorem trackLE_trans (lc : JSStr → JSStr → Bool)
    (hTrans : ∀ a b c, lc a b = true → lc b c = true → lc a c = true) :
    ∀ a b c : TrackDraft, trackLE lc a b = true → trackLE lc b c = true →
      trackLE lc a c = true := by
  intro a b c hab hbc
  simp only [trackLE, Bool.or_eq_true, Bool.and_eq_true, decide_eq_true_eq] at *
  rcases hab with h1 | ⟨h1, h1'⟩ <;> rcases hbc with h2 | ⟨h2, h2'⟩
  · exact Or.inl (lt_trans h1 h2)
  · exact Or.inl (h2 ▸ h1)
  · exact Or.inl (h1 ▸ h2)
  · exact Or.inr ⟨h1.trans h2, hTrans _ _ _ h1' h2'⟩

/-- C6: grouping of parsed records — (1) records are grouped by the
`album|||artist` key with missing album/artist defaulting to "Unknown Album"
and "Unknown Artist" (one entry per distinct key, in first-occurrence order);
(2) within a group, tracks are sorted ascending by the comparator
(trackNum, then title under the locale order `lc`), with missing or
non-numeric track numbers mapped to the sentinel 9999; (3) each album keeps
at most one picture, the first non-null picture among its records in input
order; (4) the emitted album list is sorted by album title. -/
theorem grouping_spec (lc : JSStr → JSStr → Bool)
    (hTot : ∀ a b, lc a b = true ∨ lc b a = true)
    (hTrans : ∀ a b c, lc a b = true → lc b c = true → lc a c = true)
    (parsed : List ParsedItem) :
    foldAlbums parsed = (firstKeys parsed).map (fun k => (k, entryFor k parsed)) ∧
    (∀ k ∈ firstKeys parsed, ∀ p ps, recordsFor k parsed = p :: ps →
      (entryFor k parsed).albumName = jsOr p.tags.album (jsOfString "Unknown Album") ∧
      (entryFor k parsed).artistName = jsOr p.tags.artist (jsOfString "Unknown Artist") ∧
      (entryFor k parsed).tracks = (p :: ps).map mkTrack ∧
      (entryFor k parsed).picture = (p :: ps).findSome? fun q => q.tags.picture) ∧
    (∀ e : AlbumEntry, ∃ ds : List TrackDraft,
      List.Sorted (fun a b => trackLE lc a b = true) ds ∧ ds.Perm e.tracks ∧
      (buildAlbum lc e).tracks =
        ds.map fun t => { title := t.title, dur := t.dur, path := t.path }) ∧
    parseTrackNumber none = 9999 ∧
    parseTrackNumber (some []) = 9999 ∧
    (∀ s : JSStr, jsParseInt10 s = none → parseTrackNumber (some s) = 9999) ∧
    List.Sorted (fun a b => albumLE lc a b = true) (groupAlbums lc parsed) ∧
    (groupAlbums lc parsed).Perm ((foldAlbums parsed).map fun ke => buildAlbum lc ke.2) := by
  refine ⟨foldAlbums_canonical parsed, ?_, ?_, rfl, rfl, ?_, ?_, ?_⟩
  · intro k hk p ps hrec
    rw [entryFor, hrec]
    refine ⟨?_, ?_, ?_, ?_⟩
    · show (List.foldl pushTrack (newEntry p.tags) (p :: ps)).albumName = _
      rw [foldl_pushTrack_albumName]
      rfl
    · show (List.foldl pushTrack (newEntry p.tags) (p :: ps)).artistName = _
      rw [foldl_pushTrack_artistName]
      rfl
    · show (List.foldl pushTrack (newEntry p.tags) (p :: ps)).tracks = _
      rw [foldl_pushTrack_tracks]
      rfl
    · show (List.foldl pushTrack (newEntry p.tags) (p :: ps)).picture = _
      rw [foldl_pushTrack_picture]
      rfl
  · haveI : IsTotal TrackDraft (fun a b => trackLE lc a b = true) := ⟨trackLE_total lc hTot⟩
    haveI : IsTrans TrackDraft (fun a b => trackLE lc a b = true) :=
      ⟨trackLE_trans lc hTrans⟩
    exact fun e => ⟨e.tracks.insertionSort fun a b => trackLE lc a b = true,
      List.sorted_insertionSort _ e.tracks, List.perm_insertionSort _ e.tracks, rfl⟩
  · intro s hs
    by_cases he : s = []
    · simp [parseTrackNumber, he]
    · simp [parseTrackNumber, he, hs]
  · haveI : IsTotal Album (fun a b => albumLE lc a b = true) := ⟨fun a b => hTot _ _⟩
    haveI : IsTrans Album (fun a b => albumLE lc a b = true) :=
      ⟨fun a b c => hTrans _ _ _⟩
    exact List.sorted_insertionSort _ _
  · exact List.perm_insertionSort _ _

theorem lexLE_total : ∀ a b : JSStr, lexLE a b = true ∨ lexLE b a = true := by
  intro a b
  simp only [lexLE, decide_eq_true_eq]
  exact le_total a b

theorem lexLE_trans : ∀ a b c : JSStr, lexLE a b = true → lexLE b c = true →
    lexLE a c = true := by
  intro a b c
  simp only [lexLE, decide_eq_true_eq]
  exact le_trans

theorem grouping_spec_witness :
    foldAlbums c6Parsed = (firstKeys c6Parsed).map (fun k => (k, entryFor k c6Parsed)) ∧
    List.Sorted (fun a b => albumLE lexLE a b = true) (groupAlbums lexLE c6Parsed) :=
  ⟨(grouping_spec lexLE lexLE_total lexLE_trans c6Parsed).1,
    (grouping_spec lexLE lexLE_total lexLE_trans c6Parsed).2.2.2.2.2.2.1⟩





theorem range_map_getElem {γ : Type u} {δ : Type v} (l : List γ) (g : γ → δ) :
    (List.range l.length).map (fun i => l[i]?.map g) = l.map fun a => some (g a) := by
  apply List.ext_getElem?
  intro j
  simp only [List.getElem?_map]
  by_cases hj : j < l.length
  · rw [List.getElem?_range hj]
    simp [List.getElem?_eq_getElem hj]
  · rw [List.getElem?_eq_none (show (List.range l.length).length ≤ j by simpa using hj),
      List.getElem?_eq_none (show l.length ≤ j by omega)]
    rfl

theorem map_none_replicate {γ : Type} (n : Nat) :
    (List.range n).map (fun _ => (none : Option γ)) = List.replicate n none := by
  induction n with
  | zero => rfl
  | succ m ih =>
    rw [List.range_succ, List.map_append, ih,
      show List.map (fun _ => (none : Option γ)) [m] = [none] from rfl,
      ← List.replicate_succ']

theorem poolInv_init (items : List α) (f : α → β) (limit : Nat) :
    PoolInv items f limit (initPool β items.length limit) := by
  refine ⟨Nat.zero_le _, ?_, ?_, rfl, rfl, rfl, ?_⟩
  · intro i hi
    exact absurd hi (Finset.not_mem_empty i)
  · show List.replicate items.length none = _
    rw [show (List.range items.length).map
        (fun i => if i < (initPool β items.length limit).idx ∧
            i ∉ (initPool β items.length limit).claimed then items[i]?.map f else none) =
        (List.range items.length).map (fun _ => none) from
      List.map_congr_left (fun i _ => by simp [initPool])]
    rw [map_none_replicate]
  · intro h
    exact absurd h (by simp [initPool])

theorem poolInv_step {items : List α} {f : α → β} {limit : Nat} {s s' : PoolState β}
    (hstep : PoolStep items f s s') (hinv : PoolInv items f limit s) :
    PoolInv items f limit s' := by
  obtain ⟨h1, h2, h3, h4, h5, h6, h7⟩ := hinv
  cases hstep with
  | claim hr hi =>
    have hnotmem : s.idx ∉ s.claimed := fun hmem => absurd (h2 _ hmem) (lt_irrefl _)
    refine ⟨by dsimp only; omega, ?_, ?_, ?_, h5, ?_, ?_⟩
    · intro i hmem
      dsimp only at hmem ⊢
      rcases Finset.mem_insert.mp hmem with rfl | hmem
      · omega
      · have := h2 i hmem
        omega
    · dsimp only
      rw [h3]
      apply List.map_congr_left
      intro j hj
      by_cases hji : j = s.idx
      · subst hji
        rw [if_neg (fun h => lt_irrefl _ h.1),
          if_neg (fun h => h.2 (Finset.mem_insert_self s.idx s.claimed))]
      · by_cases hjlt : j < s.idx
        · by_cases hmem : j ∈ s.claimed
          · rw [if_neg (fun h => h.2 hmem),
              if_neg (fun h => h.2 (Finset.mem_insert_of_mem hmem))]
          · rw [if_pos ⟨hjlt, hmem⟩, if_pos ⟨by omega,
              fun h => (Finset.mem_insert.mp h).elim hji hmem⟩]
        · rw [if_neg (fun h => hjlt h.1), if_neg (fun h => absurd h.1 (by omega))]
    · dsimp only
      rw [Finset.card_insert_of_not_mem hnotmem]
      omega
    · dsimp only
      rw [Finset.card_insert_of_not_mem hnotmem]
      omega
    · dsimp only
      intro hd
      have := h7 hd
      omega
  | finish hr hi =>
    exact ⟨h1, h2, h3, h4, h5, by dsimp only; omega, fun _ => hi⟩
  | complete i hc =>
    have hilt : i < s.idx := h2 i hc
    have hin : i < items.length := lt_of_lt_of_le hilt h1
    have hcard : 0 < s.claimed.card := Finset.card_pos.mpr ⟨i, hc⟩
    refine ⟨h1, ?_, ?_, ?_, ?_, ?_, h7⟩
    · intro j hmem
      dsimp only at hmem ⊢
      exact h2 j (Finset.mem_of_mem_erase hmem)
    · dsimp only
      rw [h3]
      rw [show (((List.range items.length).map
          (fun j => if j < s.idx ∧ j ∉ s.claimed then items[j]?.map f else none)).set i
            (items[i]?.map f)) =
          (List.range items.length).map
            (fun j => if j = i then items[i]?.map f
              else if j < s.idx ∧ j ∉ s.claimed then items[j]?.map f else none) from ?_]
      · apply List.map_congr_left
        intro j hj
        by_cases hji : j = i
        · subst hji
          rw [if_pos rfl, if_pos ⟨hilt, fun h => absurd h (Finset.not_mem_erase j s.claimed)⟩]
        · rw [if_neg hji]
          by_cases hcnd : j < s.idx ∧ j ∉ s.claimed
          · rw [if_pos hcnd, if_pos ⟨hcnd.1, fun h => hcnd.2 (Finset.mem_of_mem_erase h)⟩]
          · rw [if_neg hcnd, if_neg (fun h =>
              hcnd ⟨h.1, fun hmem => h.2 (Finset.mem_erase_of_ne_of_mem hji hmem)⟩)]
      · apply List.ext_getElem?
        intro j
        rw [List.getElem?_set]
        by_cases hji : i = j
        · subst hji
          rw [if_pos rfl, if_pos (by simpa using hin), List.getElem?_map,
            List.getElem?_range hin]
          simp
        · rw [if_neg hji, List.getElem?_map, List.getElem?_map]
          by_cases hj : j < items.length
          · rw [List.getElem?_range hj]
            simp [Ne.symm hji]
          · rw [List.getElem?_eq_none
              (show (List.range items.length).length ≤ j by simpa using hj)]
            rfl
    · dsimp only
      rw [Finset.card_erase_of_mem hc]
      omega
    · dsimp only
      have hr2 : (List.range (s.scanned + 1 + 1)).map (fun k => (k, items.length)) =
          (List.range (s.scanned + 1)).map (fun k => (k, items.length)) ++
            [(s.scanned + 1, items.length)] := by
        rw [List.range_succ, List.map_append]
        rfl
      rw [h5, hr2]
    · dsimp only
      rw [Finset.card_erase_of_mem hc]
      omega

theorem poolInv_reachable (items : List α) (f : α → β) (limit : Nat)
    {s : PoolState β} (h : PoolReachable items f limit s) : PoolInv items f limit s := by
  induction h with
  | refl => exact poolInv_init items f limit
  | tail _ hstep ih => exact poolInv_step hstep ih

/-- C2: for every item list and concurrency limit ≥ 1, every terminal state
of the bounded worker pool has its results array of length n with slot i
holding the (caught, possibly null) outcome of file i in original input
order, every file processed exactly once; the progress log runs
`(0, n), (1, n), …, (n, n)` — one report per file regardless of success —
so its final entry is `(n, n)`. -/
theorem scan_pipeline_ordered (items : List α) (f : α → β) (limit : Nat)
    (hlim : 1 ≤ limit) (s : PoolState β)
    (hreach : PoolReachable items f limit s) (hdone : PoolDone s) :
    s.results = items.map (fun a => some (f a)) ∧
    s.scanned = items.length ∧
    s.idx = items.length ∧
    s.log = (List.range (items.length + 1)).map (fun j => (j, items.length)) ∧
    s.log.getLast? = some (items.length, items.length) := by
  obtain ⟨h1, h2, h3, h4, h5, h6, h7⟩ := poolInv_reachable items f limit hreach
  obtain ⟨hready, hclaimed⟩ := hdone
  have hcard : s.claimed.card = 0 := by rw [hclaimed]; rfl
  have hidx : s.idx = items.length := by
    rcases Nat.eq_zero_or_pos items.length with hn | hn
    · omega
    · have hmin : 1 ≤ min limit items.length := le_min hlim hn
      have hdone1 : 0 < s.nDone := by omega
      have := h7 hdone1
      omega
  have hscan : s.scanned = items.length := by omega
  refine ⟨?_, hscan, hidx, ?_, ?_⟩
  · rw [h3, List.map_congr_left (fun i hi => if_pos
      ⟨by rw [hidx]; exact List.mem_range.mp hi, by rw [hclaimed]; exact Finset.not_mem_empty i⟩)]
    exact range_map_getElem items f
  · rw [h5, hscan]
  · rw [h5, hscan, List.range_succ, List.map_append,
      show List.map (fun j => (j, items.length)) [items.length] =
        [(items.length, items.length)] from rfl,
      List.getLast?_concat]


theorem c2_trace : PoolReachable c2Items (fun x => c2Task x) 1 c2FinalState := by
  have step1 : PoolStep c2Items (fun x => c2Task x) (initPool (Option Nat) 1 1) c2MidState1 := by
    have h := @PoolStep.claim Nat (Option Nat) c2Items (fun x => c2Task x)
      (initPool (Option Nat) 1 1) (by decide) (by decide)
    convert h using 2
  have step2 : PoolStep c2Items (fun x => c2Task x) c2MidState1 c2MidState2 := by
    have h := @PoolStep.complete Nat (Option Nat) c2Items (fun x => c2Task x)
      c2MidState1 0 (by decide)
    convert h using 2
  have step3 : PoolStep c2Items (fun x => c2Task x) c2MidState2 c2FinalState := by
    have h := @PoolStep.finish Nat (Option Nat) c2Items (fun x => c2Task x)
      c2MidState2 (by decide) (by decide)
    convert h using 2
  exact ((Relation.ReflTransGen.single step1).tail step2).tail step3

theorem scan_pipeline_ordered_witness :
    PoolDone c2FinalState ∧
    c2FinalState.results = c2Items.map (fun a => some (c2Task a)) ∧
    c2FinalState.log.getLast? = some (1, 1) := by
  have hmain := scan_pipeline_ordered c2Items (fun x => c2Task x) 1 (by decide)
    c2FinalState c2_trace ⟨rfl, rfl⟩
  exact ⟨⟨rfl, rfl⟩, hmain.1, hmain.2.2.2.2⟩


end ProtoPlayer
